import Mathlib

/-
Verification of the FFGMixin variational layer transform (bnn/nn/mixins/variational/ffg.py).
Tensors are modelled as real-valued functions over abstract index types; the base layer
forward pass, which the mixin delegates to, is an external pure function of the input and
of the current weight/bias slot values. Standard normal draws are passed explicitly.
Exceptions raised by the python code are modelled by Option, with none for a raise.
-/

namespace Bayesianize

noncomputable section

/-- Constant EPS = 1e-6 from ffg.py. -/
def EPS : ℝ := 1e-6

/-- Softplus positivity map, the idealized semantics of torch F.softplus with beta 1:
log(1 + exp x). -/
def softplus (x : ℝ) : ℝ := Real.log (1 + Real.exp x)

/-- Torch clamp semantics with a mandatory lower bound and optional upper bound: the lower
bound is applied first, then the upper bound when present. -/
def clampR (x lo : ℝ) (hi : Option ℝ) : ℝ :=
  match hi with
  | none => max x lo
  | some h => min (max x lo) h

/-- Helper _normal_sample from ffg.py: mean + eps * sd elementwise, where eps is the
standard normal draw produced by torch.randn_like, passed explicitly. -/
def _normal_sample {ι : Type} (mean sd eps : ι → ℝ) : ι → ℝ :=
  fun i => mean i + eps i * sd i

/-- Helper _prod from ffg.py: product of a list of dimensions, reduce with initial value 1. -/
def _prod (l : List ℕ) : ℕ := l.foldl (fun a b => a * b) 1

/-- State of an FFGMixin layer object: the retained configuration, the learnable posterior
parameters (weight_mean, _weight_sd and bias counterparts, absent when the wrapped layer
has no bias), the externally visible weight/bias slots, and the prior buffers. W and B
index the weight and bias tensors. -/
structure FFGState (W : Type) (B : Type) where
  has_bias : Bool
  local_reparameterization : Bool
  max_sd : Option ℝ
  weight_mean : W → ℝ
  _weight_sd : W → ℝ
  bias_mean : Option (B → ℝ)
  _bias_sd : Option (B → ℝ)
  weight : W → ℝ
  bias : Option (B → ℝ)
  prior_weight_mean : W → ℝ
  prior_weight_sd : W → ℝ
  prior_bias_mean : Option (B → ℝ)
  prior_bias_sd : Option (B → ℝ)

/-- Property weight_sd from ffg.py: softplus of the raw scale clamped to [1e-5, max_sd]. -/
def FFGState.weight_sd {W B : Type} (s : FFGState W B) : W → ℝ :=
  fun i => clampR (softplus (s._weight_sd i)) 1e-5 s.max_sd

/-- Property bias_sd from ffg.py: as weight_sd when the layer has a bias, absent otherwise. -/
def FFGState.bias_sd {W B : Type} (s : FFGState W B) : Option (B → ℝ) :=
  if s.has_bias then s._bias_sd.map (fun r => fun j => clampR (softplus (r j)) 1e-5 s.max_sd)
  else none

/-- Evaluate an optional tensor, with an arbitrary default in the absent case. The python
code only evaluates the corresponding attributes behind a has_bias guard, where the
tensor is present. -/
def optF {B : Type} (o : Option (B → ℝ)) (j : B) : ℝ := (o.getD (fun _ => 0)) j

/-- Closed form computed by torch.distributions.kl_divergence on two Normal distributions,
for kl_divergence(p, q) with p = N(mq, sq) and q = N(mp, sp):
((sq/sp)^2 + ((mq-mp)/sp)^2 - 1 - log((sq/sp)^2)) / 2. -/
def klNormalNormal (mq sq mp sp : ℝ) : ℝ :=
  ((sq / sp) ^ 2 + ((mq - mp) / sp) ^ 2 - 1 - Real.log ((sq / sp) ^ 2)) / 2

/-- Method kl_divergence from ffg.py: the sum of the elementwise Normal-to-Normal KL from
the posterior to the prior over the weight, plus the same sum over the bias when present. -/
def FFGState.kl_divergence {W B : Type} [Fintype W] [Fintype B] (s : FFGState W B) : ℝ :=
  (∑ i, klNormalNormal (s.weight_mean i) (s.weight_sd i)
      (s.prior_weight_mean i) (s.prior_weight_sd i))
  + (if s.has_bias then
      ∑ j, klNormalNormal (optF s.bias_mean j) (optF s.bias_sd j)
        (optF s.prior_bias_mean j) (optF s.prior_bias_sd j)
    else 0)

/-- Elementwise form of the variance stabilization on line 147 of ffg.py:
v + abs(v) * (1 if v < 0 else 0) + EPS. -/
def stabilize (v : ℝ) : ℝ := v + |v| * (if v < 0 then 1 else 0) + EPS

/-- Method forward from ffg.py. The base layer forward pass is the pure function baseF of
the input tensor and the current weight/bias slot values; epsO is the standard normal draw
used for the output in the local reparameterization branch, epsW and epsB the draws used
for the weight and bias in the direct sampling branch. Returns the output tensor together
with the state of the object after the call. -/
def FFGMixin.forward {W B I O : Type}
    (baseF : (I → ℝ) → (W → ℝ) → Option (B → ℝ) → O → ℝ)
    (s : FFGState W B) (x : I → ℝ) (epsO : O → ℝ) (epsW : W → ℝ) (epsB : B → ℝ) :
    (O → ℝ) × FFGState W B :=
  if s.local_reparameterization then
    let s1 : FFGState W B :=
      { s with weight := s.weight_mean, bias := if s.has_bias then s.bias_mean else none }
    let output_mean := baseF x s1.weight s1.bias
    let s2 : FFGState W B :=
      { s1 with weight := fun i => s1.weight_sd i ^ 2,
                bias := if s1.has_bias then s1.bias_sd.map (fun b => fun j => b j ^ 2)
                        else none }
    let output_var := baseF (fun i => x i ^ 2) s2.weight s2.bias
    (_normal_sample output_mean (fun o => Real.sqrt (stabilize (output_var o))) epsO, s2)
  else
    let s1 : FFGState W B :=
      { s with weight := _normal_sample s.weight_mean s.weight_sd epsW,
               bias := if s.has_bias then
                   s.bias_mean.map (fun bm => fun j => bm j + epsB j * optF s.bias_sd j)
                 else none }
    (baseF x s1.weight s1.bias, s1)

/-- Configuration passed to FFGMixin via keyword arguments at construction. -/
structure FFGConfig where
  prior_mean : ℝ
  prior_weight_sd : ℝ
  prior_bias_sd : ℝ
  init_sd : ℝ
  max_sd : Option ℝ
  local_reparameterization : Bool
  nonlinearity_scale : ℝ
  sqrt_width_scaling : Bool

/-- Deterministic layer being wrapped: its weight tensor together with the weight shape
(a list of dimensions, the first being the output dimension), and its optional bias. -/
structure DetLayer (W : Type) (B : Type) where
  weight : W → ℝ
  weight_shape : List ℕ
  bias : Option (B → ℝ)

/-- State built by FFGMixin.__init__ once the raw scale initialization value
log(expm1(init_sd)) is defined: posterior means copy the deterministic parameters, raw
scales are filled with that value, the visible slots are repointed at the means, and the
prior buffers are broadcast from the configured scalars, with the prior sds divided by
the square root of the fan-in when sqrt_width_scaling is set and the prior weight sd
multiplied by nonlinearity_scale. -/
def mkState {W B : Type} (l : DetLayer W B) (cfg : FFGConfig) : FFGState W B :=
  let rawInit : ℝ := Real.log (Real.exp cfg.init_sd - 1)
  let hasBias : Bool := l.bias.isSome
  let inputDim : ℕ := _prod l.weight_shape.tail + (if hasBias then 1 else 0)
  let pws1 : ℝ := if cfg.sqrt_width_scaling then cfg.prior_weight_sd / Real.sqrt inputDim
                  else cfg.prior_weight_sd
  let pbs1 : ℝ := if cfg.sqrt_width_scaling then cfg.prior_bias_sd / Real.sqrt inputDim
                  else cfg.prior_bias_sd
  let pws2 : ℝ := pws1 * cfg.nonlinearity_scale
  { has_bias := hasBias
    local_reparameterization := cfg.local_reparameterization
    max_sd := cfg.max_sd
    weight_mean := l.weight
    _weight_sd := fun _ => rawInit
    bias_mean := l.bias
    _bias_sd := l.bias.map (fun _ => fun _ => rawInit)
    weight := l.weight
    bias := l.bias
    prior_weight_mean := fun _ => cfg.prior_mean
    prior_weight_sd := fun _ => pws2
    prior_bias_mean := l.bias.map (fun _ => fun _ => cfg.prior_mean)
    prior_bias_sd := l.bias.map (fun _ => fun _ => pbs1) }

/-- Constructor FFGMixin.__init__ from ffg.py. The call math.log(math.expm1(init_sd)) on
line 49 raises a domain error exactly when expm1(init_sd) is not strictly positive, so
construction is modelled as returning none in that case and the built state otherwise. -/
def FFGMixin.mk {W B : Type} (l : DetLayer W B) (cfg : FFGConfig) : Option (FFGState W B) :=
  if 0 < Real.exp cfg.init_sd - 1 then some (mkState l cfg) else none

/-- Parameter dictionary passed to init_from_deterministic_params: a weight entry and an
optional bias entry. -/
structure ParamDict (W : Type) (B : Type) where
  weight : W → ℝ
  bias : Option (B → ℝ)

/-- Method init_from_deterministic_params from ffg.py. Copies the supplied weight into
weight_mean; then, when the dictionary holds a bias, copies it into bias_mean. When the
dictionary holds a bias but the layer registered bias_mean as absent, the attribute access
bias_mean.data raises, modelled as none (the weight copy has already happened in the
python code at that point, an effect the Option model discards together with the raise). -/
def FFGState.init_from_deterministic_params {W B : Type}
    (s : FFGState W B) (p : ParamDict W B) : Option (FFGState W B) :=
  let s1 : FFGState W B := { s with weight_mean := p.weight }
  match p.bias with
  | none => some s1
  | some b =>
    match s1.bias_mean with
    | none => none
    | some _ => some { s1 with bias_mean := some b }

/-- Concrete base forward pass on one-element tensors, used to instantiate theorems. -/
def baseF0 : (Fin 1 → ℝ) → (Fin 1 → ℝ) → Option (Fin 1 → ℝ) → Fin 1 → ℝ :=
  fun x w _ => fun _ => x 0 * w 0

/-- Concrete layer state without bias, in local reparameterization mode. -/
def s0 : FFGState (Fin 1) (Fin 1) where
  has_bias := false
  local_reparameterization := true
  max_sd := none
  weight_mean := fun _ => 0
  _weight_sd := fun _ => 0
  bias_mean := none
  _bias_sd := none
  weight := fun _ => 0
  bias := none
  prior_weight_mean := fun _ => 0
  prior_weight_sd := fun _ => 1
  prior_bias_mean := none
  prior_bias_sd := none

/-- Concrete layer state without bias, in direct sampling mode. -/
def s0d : FFGState (Fin 1) (Fin 1) where
  has_bias := false
  local_reparameterization := false
  max_sd := none
  weight_mean := fun _ => 0
  _weight_sd := fun _ => 0
  bias_mean := none
  _bias_sd := none
  weight := fun _ => 0
  bias := none
  prior_weight_mean := fun _ => 0
  prior_weight_sd := fun _ => 1
  prior_bias_mean := none
  prior_bias_sd := none

/-- Concrete deterministic layer without bias. -/
def l0 : DetLayer (Fin 1) (Fin 1) where
  weight := fun _ => 0
  weight_shape := [1, 1]
  bias := none

/-- Concrete configuration with init_sd 1 and no ceiling. -/
def cfg0 : FFGConfig where
  prior_mean := 0
  prior_weight_sd := 1
  prior_bias_sd := 1
  init_sd := 1
  max_sd := none
  local_reparameterization := true
  nonlinearity_scale := 1
  sqrt_width_scaling := false

/-- Concrete deterministic layer without bias whose fan-in is 16. -/
def l16 : DetLayer (Fin 1) (Fin 1) where
  weight := fun _ => 0
  weight_shape := [5, 16]
  bias := none

/-- Concrete configuration with sqrt_width_scaling set and prior weight sd 4. -/
def cfg16 : FFGConfig where
  prior_mean := 0
  prior_weight_sd := 4
  prior_bias_sd := 1
  init_sd := 1
  max_sd := none
  local_reparameterization := true
  nonlinearity_scale := 1
  sqrt_width_scaling := true

/-- Concrete parameter dictionary containing a bias entry. -/
def pB : ParamDict (Fin 1) (Fin 1) where
  weight := fun _ => 5
  bias := some (fun _ => 7)

/-- Concrete parameter dictionary without a bias entry. -/
def pN : ParamDict (Fin 1) (Fin 1) where
  weight := fun _ => 5
  bias := none

/-- Claim C2 counterexample: the entry 1 is non-negative, yet the stabilization does not
leave it unchanged: it returns 1 + EPS. -/
theorem C2_counterexample : stabilize 1 ≠ 1 := by
  have h : stabilize 1 = 1 + 1e-6 := by
    simp [stabilize, EPS]
  rw [h]
  norm_num

/-- Claim C2 (amended): the stabilization step maps each raw entry v to max v 0 + EPS:
the result is at least EPS everywhere, a strictly negative entry becomes exactly EPS, and
an entry that was already non-negative is changed only by the additive constant EPS. -/
theorem C2_stabilize : ∀ v : ℝ, stabilize v = max v 0 + EPS ∧ EPS ≤ stabilize v := by
  intro v
  have hEps : (0:ℝ) < EPS := by norm_num [EPS]
  rcases lt_or_le v 0 with hv | hv
  · have habs : |v| = -v := abs_of_neg hv
    have h1 : stabilize v = EPS := by
      simp [stabilize, hv, habs]
    have h2 : max v 0 = 0 := max_eq_right hv.le
    rw [h1, h2]
    constructor
    · ring
    · exact le_refl _
  · have h1 : stabilize v = v + EPS := by
      simp [stabilize, not_lt.mpr hv]
    have h2 : max v 0 = v := max_eq_left hv
    rw [h1, h2]
    exact ⟨rfl, by linarith⟩

/-- Positivity of expm1: exp x - 1 is positive exactly when x is. -/
theorem expm1_pos_iff (x : ℝ) : 0 < Real.exp x - 1 ↔ 0 < x := by
  rw [sub_pos]
  exact Real.one_lt_exp_iff

/-- Construction succeeds exactly on positive init_sd. -/
theorem mk_isSome_iff {W B : Type} (l : DetLayer W B) (cfg : FFGConfig) :
    (FFGMixin.mk l cfg).isSome = true ↔ 0 < cfg.init_sd := by
  unfold FFGMixin.mk
  rcases lt_or_le 0 (Real.exp cfg.init_sd - 1) with h | h
  · simp [h, (expm1_pos_iff cfg.init_sd).mp h]
  · simp [not_lt.mpr h]
    by_contra hc
    push_neg at hc
    exact absurd ((expm1_pos_iff cfg.init_sd).mpr hc) (not_lt.mpr h)

/-- Construction on positive init_sd yields the built state. -/
theorem mk_eq_some {W B : Type} (l : DetLayer W B) (cfg : FFGConfig)
    (h : 0 < cfg.init_sd) : FFGMixin.mk l cfg = some (mkState l cfg) := by
  unfold FFGMixin.mk
  rw [if_pos ((expm1_pos_iff cfg.init_sd).mpr h)]

/-- Claim C10: the raw scale initializer log(expm1(init_sd)) is defined exactly when
init_sd is strictly positive, so construction succeeds if and only if 0 < init_sd. -/
theorem C10_construction_domain {W B : Type} (l : DetLayer W B) (cfg : FFGConfig) :
    (FFGMixin.mk l cfg).isSome = true ↔ 0 < cfg.init_sd :=
  mk_isSome_iff l cfg

/-- The clamp never goes below its lower bound, provided the upper bound, when present, is
at least the lower bound. -/
theorem clampR_lower (x lo : ℝ) (hi : Option ℝ) (hm : ∀ m, hi = some m → lo ≤ m) :
    lo ≤ clampR x lo hi := by
  cases hi with
  | none => exact le_max_right _ _
  | some m => exact le_min (le_max_right _ _) (hm m rfl)

/-- The clamp never exceeds its upper bound when one is present. -/
theorem clampR_upper (x lo m : ℝ) : clampR x lo (some m) ≤ m := min_le_right _ _

/-- Claim C4: weight_sd returns the clamped softplus of the raw scale; provided the
configured ceiling, when present, is at least the floor 1e-5, every returned element is
at least 1e-5, hence strictly positive, and it never exceeds the ceiling when one is set;
bias_sd reports absent when the wrapped layer has no bias. -/
theorem C4_effective_sd_bounds {W B : Type} (s : FFGState W B) (i : W)
    (hm : ∀ m, s.max_sd = some m → (1e-5 : ℝ) ≤ m) :
    s.weight_sd i = clampR (softplus (s._weight_sd i)) 1e-5 s.max_sd
    ∧ (1e-5 : ℝ) ≤ s.weight_sd i
    ∧ 0 < s.weight_sd i
    ∧ (∀ m, s.max_sd = some m → s.weight_sd i ≤ m)
    ∧ (s.has_bias = false → s.bias_sd = none) := by
  have hlo : (1e-5 : ℝ) ≤ s.weight_sd i := clampR_lower _ _ _ hm
  refine ⟨rfl, hlo, lt_of_lt_of_le (by norm_num) hlo, ?_, ?_⟩
  · intro m hmax
    have : s.weight_sd i = clampR (softplus (s._weight_sd i)) 1e-5 (some m) := by
      rw [FFGState.weight_sd, hmax]
    rw [this]
    exact clampR_upper _ _ _
  · intro hb
    rw [FFGState.bias_sd, hb]
    simp

/-- Claim C4 witness at a concrete state without ceiling. -/
theorem C4_witness :
    s0.weight_sd 0 = clampR (softplus (s0._weight_sd 0)) 1e-5 s0.max_sd
    ∧ (1e-5 : ℝ) ≤ s0.weight_sd 0
    ∧ 0 < s0.weight_sd 0 := by
  obtain ⟨h1, h2, h3, _, _⟩ :=
    C4_effective_sd_bounds s0 0 (fun _ hm => Option.noConfusion hm)
  exact ⟨h1, h2, h3⟩

/-- Claim C1: in local reparameterization mode, forward returns
output_mean + eps * sqrt(stabilized variance) elementwise, where output_mean is the base
forward pass on x with the slots holding the posterior means, and the raw variance is the
base forward pass on the elementwise square of x with the slots holding the elementwise
variances weight_sd^2 and bias_sd^2, for the per-output-element draw eps. -/
theorem C1_forward_local_reparameterization {W B I O : Type}
    (baseF : (I → ℝ) → (W → ℝ) → Option (B → ℝ) → O → ℝ)
    (s : FFGState W B) (x : I → ℝ) (epsO : O → ℝ) (epsW : W → ℝ) (epsB : B → ℝ)
    (h : s.local_reparameterization = true) :
    (FFGMixin.forward baseF s x epsO epsW epsB).1 = fun o =>
      baseF x s.weight_mean (if s.has_bias then s.bias_mean else none) o
      + epsO o * Real.sqrt (stabilize
          (baseF (fun i => x i ^ 2) (fun i => s.weight_sd i ^ 2)
            (if s.has_bias then s.bias_sd.map (fun b => fun j => b j ^ 2) else none) o)) := by
  unfold FFGMixin.forward
  rw [h]
  rfl

/-- Claim C1 witness at a concrete layer, input and draws. -/
theorem C1_witness :
    (FFGMixin.forward baseF0 s0 (fun _ => 2) (fun _ => 3) (fun _ => 0) (fun _ => 0)).1
      = fun o =>
      baseF0 (fun _ => 2) s0.weight_mean (if s0.has_bias then s0.bias_mean else none) o
      + (fun _ => (3:ℝ)) o * Real.sqrt (stabilize
          (baseF0 (fun i => (fun _ => (2:ℝ)) i ^ 2) (fun i => s0.weight_sd i ^ 2)
            (if s0.has_bias then s0.bias_sd.map (fun b => fun j => b j ^ 2) else none) o)) :=
  C1_forward_local_reparameterization baseF0 s0 (fun _ => 2) (fun _ => 3) (fun _ => 0)
    (fun _ => 0) rfl

/-- Claim C3: in direct sampling mode, forward returns the base forward pass on x with the
weight slot holding weight_mean + epsW * weight_sd and the bias slot holding
bias_mean + epsB * bias_sd when a bias exists, and the call leaves weight_mean, the raw
scale _weight_sd and their bias counterparts unchanged. -/
theorem C3_forward_direct_sampling {W B I O : Type}
    (baseF : (I → ℝ) → (W → ℝ) → Option (B → ℝ) → O → ℝ)
    (s : FFGState W B) (x : I → ℝ) (epsO : O → ℝ) (epsW : W → ℝ) (epsB : B → ℝ)
    (h : s.local_reparameterization = false) :
    (FFGMixin.forward baseF s x epsO epsW epsB).1
      = baseF x (fun i => s.weight_mean i + epsW i * s.weight_sd i)
          (if s.has_bias then
            s.bias_mean.map (fun bm => fun j => bm j + epsB j * optF s.bias_sd j)
          else none)
    ∧ (FFGMixin.forward baseF s x epsO epsW epsB).2.weight_mean = s.weight_mean
    ∧ (FFGMixin.forward baseF s x epsO epsW epsB).2._weight_sd = s._weight_sd
    ∧ (FFGMixin.forward baseF s x epsO epsW epsB).2.bias_mean = s.bias_mean
    ∧ (FFGMixin.forward baseF s x epsO epsW epsB).2._bias_sd = s._bias_sd := by
  unfold FFGMixin.forward
  rw [h]
  exact ⟨rfl, rfl, rfl, rfl, rfl⟩

/-- Claim C3 witness at a concrete layer, input and draws. -/
theorem C3_witness :
    (FFGMixin.forward baseF0 s0d (fun _ => 2) (fun _ => 3) (fun _ => 1) (fun _ => 1)).1
      = baseF0 (fun _ => 2) (fun i => s0d.weight_mean i + (fun _ => (1:ℝ)) i * s0d.weight_sd i)
          (if s0d.has_bias then
            s0d.bias_mean.map (fun bm => fun j => bm j + (fun _ => (1:ℝ)) j * optF s0d.bias_sd j)
          else none)
    ∧ (FFGMixin.forward baseF0 s0d (fun _ => 2) (fun _ => 3) (fun _ => 1)
        (fun _ => 1)).2.weight_mean = s0d.weight_mean
    ∧ (FFGMixin.forward baseF0 s0d (fun _ => 2) (fun _ => 3) (fun _ => 1)
        (fun _ => 1)).2._weight_sd = s0d._weight_sd
    ∧ (FFGMixin.forward baseF0 s0d (fun _ => 2) (fun _ => 3) (fun _ => 1)
        (fun _ => 1)).2.bias_mean = s0d.bias_mean
    ∧ (FFGMixin.forward baseF0 s0d (fun _ => 2) (fun _ => 3) (fun _ => 1)
        (fun _ => 1)).2._bias_sd = s0d._bias_sd :=
  C3_forward_direct_sampling baseF0 s0d (fun _ => 2) (fun _ => 3) (fun _ => 1)
    (fun _ => 1) rfl

/-- Claim C6 counterexample: at a concrete layer in local reparameterization mode, after a
forward call returns, the externally visible weight slot does not hold the posterior mean
(it holds the elementwise variance weight_sd^2, here strictly positive, while the mean is
zero). -/
theorem C6_counterexample :
    (FFGMixin.forward baseF0 s0 (fun _ => 1) (fun _ => 1) (fun _ => 0) (fun _ => 0)).2.weight
      ≠ s0.weight_mean := by
  have hslot : (FFGMixin.forward baseF0 s0 (fun _ => 1) (fun _ => 1) (fun _ => 0)
      (fun _ => 0)).2.weight = fun i => s0.weight_sd i ^ 2 := rfl
  rw [hslot]
  intro hEq
  have h0 := congrFun hEq 0
  have h1 : (1e-5 : ℝ) ≤ s0.weight_sd 0 := clampR_lower _ _ _ (fun _ hm => Option.noConfusion hm)
  have hpos : (0:ℝ) < s0.weight_sd 0 := by linarith
  have hmean : s0.weight_mean 0 = 0 := rfl
  rw [hmean] at h0
  exact (ne_of_gt (pow_pos hpos 2)) h0

/-- Claim C6 (amended): a forward call in local reparameterization mode leaves the
elementwise variances weight_sd^2 and bias_sd^2 in the externally visible weight and bias
slots when it returns; the slots are not restored to the posterior means, so callers
between forward calls can observe these internal values. -/
theorem C6_amended_slots_after_forward {W B I O : Type}
    (baseF : (I → ℝ) → (W → ℝ) → Option (B → ℝ) → O → ℝ)
    (s : FFGState W B) (x : I → ℝ) (epsO : O → ℝ) (epsW : W → ℝ) (epsB : B → ℝ)
    (h : s.local_reparameterization = true) :
    (FFGMixin.forward baseF s x epsO epsW epsB).2.weight = (fun i => s.weight_sd i ^ 2)
    ∧ (FFGMixin.forward baseF s x epsO epsW epsB).2.bias
        = (if s.has_bias then s.bias_sd.map (fun b => fun j => b j ^ 2) else none) := by
  unfold FFGMixin.forward
  rw [h]
  exact ⟨rfl, rfl⟩

/-- Claim C6 witness at a concrete layer, input and draws. -/
theorem C6_witness :
    (FFGMixin.forward baseF0 s0 (fun _ => 2) (fun _ => 3) (fun _ => 0) (fun _ => 0)).2.weight
        = (fun i => s0.weight_sd i ^ 2)
    ∧ (FFGMixin.forward baseF0 s0 (fun _ => 2) (fun _ => 3) (fun _ => 0) (fun _ => 0)).2.bias
        = (if s0.has_bias then s0.bias_sd.map (fun b => fun j => b j ^ 2) else none) :=
  C6_amended_slots_after_forward baseF0 s0 (fun _ => 2) (fun _ => 3) (fun _ => 0)
    (fun _ => 0) rfl

/-- Specification closed form of the per-element Gaussian KL divergence from the posterior
N(mq, sq^2) to the prior N(mp, sp^2): log(sp/sq) + (sq^2 + (mq - mp)^2)/(2 sp^2) - 1/2. -/
def specKLNormal (mq sq mp sp : ℝ) : ℝ :=
  Real.log (sp / sq) + (sq ^ 2 + (mq - mp) ^ 2) / (2 * sp ^ 2) - 1 / 2

/-- The torch closed form agrees with the specification closed form on positive scales. -/
theorem klNormalNormal_eq_spec (mq sq mp sp : ℝ) (hq : 0 < sq) (hp : 0 < sp) :
    klNormalNormal mq sq mp sp = specKLNormal mq sq mp sp := by
  have hq0 : sq ≠ 0 := ne_of_gt hq
  have hp0 : sp ≠ 0 := ne_of_gt hp
  unfold klNormalNormal specKLNormal
  rw [Real.log_pow, Real.log_div hq0 hp0, Real.log_div hp0 hq0]
  push_cast
  field_simp
  ring

/-- Claim C5: kl_divergence returns the sum over all weight elements of the closed form
Gaussian KL divergence log(sp/sq) + (sq^2 + (mq - mp)^2)/(2 sp^2) - 1/2 from the posterior
N(weight_mean, weight_sd^2) to the prior N(prior_weight_mean, prior_weight_sd^2), plus the
analogous sum over bias elements exactly when the layer has a bias, provided the posterior
and prior scales involved are positive. -/
theorem C5_kl_divergence_closed_form {W B : Type} [Fintype W] [Fintype B]
    (s : FFGState W B)
    (hq : ∀ i, 0 < s.weight_sd i) (hp : ∀ i, 0 < s.prior_weight_sd i)
    (hbq : s.has_bias = true → ∀ j, 0 < optF s.bias_sd j)
    (hbp : s.has_bias = true → ∀ j, 0 < optF s.prior_bias_sd j) :
    s.kl_divergence
      = (∑ i, specKLNormal (s.weight_mean i) (s.weight_sd i)
          (s.prior_weight_mean i) (s.prior_weight_sd i))
      + (if s.has_bias then
          ∑ j, specKLNormal (optF s.bias_mean j) (optF s.bias_sd j)
            (optF s.prior_bias_mean j) (optF s.prior_bias_sd j)
        else 0) := by
  unfold FFGState.kl_divergence
  congr 1
  · exact Finset.sum_congr rfl (fun i _ => klNormalNormal_eq_spec _ _ _ _ (hq i) (hp i))
  · by_cases hb : s.has_bias = true
    · rw [if_pos hb, if_pos hb]
      exact Finset.sum_congr rfl
        (fun j _ => klNormalNormal_eq_spec _ _ _ _ (hbq hb j) (hbp hb j))
    · rw [if_neg hb, if_neg hb]

/-- Claim C5 witness at a concrete state without bias. -/
theorem C5_witness :
    s0.kl_divergence
      = (∑ i, specKLNormal (s0.weight_mean i) (s0.weight_sd i)
          (s0.prior_weight_mean i) (s0.prior_weight_sd i))
      + (if s0.has_bias then
          ∑ j, specKLNormal (optF s0.bias_mean j) (optF s0.bias_sd j)
            (optF s0.prior_bias_mean j) (optF s0.prior_bias_sd j)
        else 0) :=
  C5_kl_divergence_closed_form s0
    (fun _ => lt_of_lt_of_le (by norm_num)
      (clampR_lower _ _ _ (fun _ hm => Option.noConfusion hm)))
    (fun _ => zero_lt_one)
    (fun hb => Bool.noConfusion hb)
    (fun hb => Bool.noConfusion hb)

/-- Softplus inverts the raw scale initializer log(expm1(s)) on positive s. -/
theorem softplus_log_expm1 {s : ℝ} (hs : 0 < s) :
    softplus (Real.log (Real.exp s - 1)) = s := by
  have h1 : (0:ℝ) < Real.exp s - 1 := (expm1_pos_iff s).mpr hs
  unfold softplus
  rw [Real.exp_log h1]
  have h2 : 1 + (Real.exp s - 1) = Real.exp s := by ring
  rw [h2, Real.log_exp]

/-- Claim C7: construction fills the raw scale tensor with the constant log(expm1(init_sd)),
the inverse of softplus at init_sd, so that when init_sd lies between the clamp floor 1e-5
and the ceiling (when one is set), the effective weight_sd immediately after construction
equals init_sd elementwise, exactly in real arithmetic. -/
theorem C7_init_sd_roundtrip {W B : Type} (l : DetLayer W B) (cfg : FFGConfig)
    (t : FFGState W B) (hmk : FFGMixin.mk l cfg = some t)
    (hlo : (1e-5 : ℝ) ≤ cfg.init_sd)
    (hhi : ∀ m, cfg.max_sd = some m → cfg.init_sd ≤ m) :
    t._weight_sd = (fun _ => Real.log (Real.exp cfg.init_sd - 1))
    ∧ t.weight_sd = fun _ => cfg.init_sd := by
  have hpos : 0 < cfg.init_sd := lt_of_lt_of_le (by norm_num) hlo
  rw [mk_eq_some l cfg hpos] at hmk
  have ht := Option.some.inj hmk
  subst ht
  refine ⟨rfl, ?_⟩
  funext i
  show clampR (softplus (Real.log (Real.exp cfg.init_sd - 1))) 1e-5 cfg.max_sd = cfg.init_sd
  rw [softplus_log_expm1 hpos]
  cases hmax : cfg.max_sd with
  | none => exact max_eq_left hlo
  | some m =>
    show min (max cfg.init_sd 1e-5) m = cfg.init_sd
    rw [max_eq_left hlo]
    exact min_eq_left (hhi m hmax)

/-- Claim C7 witness at a concrete layer and configuration with init_sd 1. -/
theorem C7_witness :
    (mkState l0 cfg0)._weight_sd = (fun _ => Real.log (Real.exp cfg0.init_sd - 1))
    ∧ (mkState l0 cfg0).weight_sd = fun _ => cfg0.init_sd :=
  C7_init_sd_roundtrip l0 cfg0 (mkState l0 cfg0)
    (mk_eq_some l0 cfg0 (show (0:ℝ) < cfg0.init_sd by norm_num [cfg0]))
    (show (1e-5:ℝ) ≤ cfg0.init_sd by norm_num [cfg0])
    (fun _ hm => Option.noConfusion hm)

/-- Claim C9: when sqrt_width_scaling is set, construction computes the fan-in as the
product of all weight dimensions except the first plus one when a bias exists, and divides
both prior sds by its square root before broadcasting them into the prior buffers (the
prior weight sd is additionally multiplied by nonlinearity_scale, line 71 of ffg.py). -/
theorem C9_sqrt_width_scaling {W B : Type} (l : DetLayer W B) (cfg : FFGConfig)
    (t : FFGState W B) (hmk : FFGMixin.mk l cfg = some t)
    (hsw : cfg.sqrt_width_scaling = true) :
    t.prior_weight_sd = (fun _ => cfg.prior_weight_sd
        / Real.sqrt ((_prod l.weight_shape.tail + (if l.bias.isSome then 1 else 0) : ℕ))
        * cfg.nonlinearity_scale)
    ∧ t.prior_bias_sd = l.bias.map (fun _ => fun _ => cfg.prior_bias_sd
        / Real.sqrt ((_prod l.weight_shape.tail + (if l.bias.isSome then 1 else 0) : ℕ))) := by
  have hpos : 0 < cfg.init_sd := (mk_isSome_iff l cfg).mp (by rw [hmk]; rfl)
  rw [mk_eq_some l cfg hpos] at hmk
  have ht := Option.some.inj hmk
  subst ht
  constructor
  · funext i
    show (if cfg.sqrt_width_scaling then
        cfg.prior_weight_sd
          / Real.sqrt ((_prod l.weight_shape.tail + (if l.bias.isSome then 1 else 0) : ℕ))
      else cfg.prior_weight_sd) * cfg.nonlinearity_scale = _
    rw [if_pos hsw]
  · show l.bias.map (fun _ => fun _ =>
        (if cfg.sqrt_width_scaling then
          cfg.prior_bias_sd
            / Real.sqrt ((_prod l.weight_shape.tail + (if l.bias.isSome then 1 else 0) : ℕ))
        else cfg.prior_bias_sd)) = _
    rw [if_pos hsw]

/-- Claim C9 witness: a layer with fan-in 16 and prior weight sd 4 yields a prior weight
sd buffer equal to 1 everywhere after construction. -/
theorem C9_witness : (mkState l16 cfg16).prior_weight_sd 0 = 1 := by
  have h := C9_sqrt_width_scaling l16 cfg16 (mkState l16 cfg16)
    (mk_eq_some l16 cfg16 (show (0:ℝ) < cfg16.init_sd by norm_num [cfg16])) rfl
  have h1 := congrFun h.1 0
  rw [h1]
  have hfan : (_prod l16.weight_shape.tail + (if l16.bias.isSome then 1 else 0) : ℕ) = 16 :=
    rfl
  rw [hfan]
  have h4 : Real.sqrt ((16:ℕ):ℝ) = 4 := by
    rw [show ((16:ℕ):ℝ) = (4:ℝ) ^ 2 by norm_num]
    exact Real.sqrt_sq (by norm_num)
  rw [h4]
  show (4:ℝ) / 4 * 1 = 1
  norm_num

/-- Case analysis of init_from_deterministic_params on the presence of the bias in the
dictionary and in the layer. -/
theorem init_from_det_eq {W B : Type} (s : FFGState W B) (p : ParamDict W B) :
    s.init_from_deterministic_params p =
      (match p.bias, s.bias_mean with
      | none, _ => some { s with weight_mean := p.weight }
      | some b, some _ => some { s with weight_mean := p.weight, bias_mean := some b }
      | some _, none => none) := by
  unfold FFGState.init_from_deterministic_params
  rcases p with ⟨pw, _ | pb⟩
  · rfl
  · cases hsm : s.bias_mean with
    | none => rfl
    | some bm => rfl

/-- Claim C8 counterexample: on a layer without bias and a parameter dictionary that does
contain a bias tensor, init_from_deterministic_params is not a silent no-op on the bias:
the attribute access on the absent bias_mean raises, modelled as none; in particular the
call does not return the state with only the weight mean overwritten. -/
theorem C8_counterexample :
    FFGState.init_from_deterministic_params s0 pB = none
    ∧ FFGState.init_from_deterministic_params s0 pB
        ≠ some { s0 with weight_mean := pB.weight } := by
  refine ⟨rfl, ?_⟩
  intro h
  have h2 : (none : Option (FFGState (Fin 1) (Fin 1)))
      = some { s0 with weight_mean := pB.weight } := h
  exact Option.noConfusion h2

/-- Claim C8 (amended): init_from_deterministic_params overwrites weight_mean with exactly
the supplied weight and, when both the dictionary and the layer have a bias, bias_mean
with the supplied bias; every successful call leaves the raw scale parameters unchanged;
the call is a silent no-op on the bias when the dictionary holds no bias; but when the
dictionary holds a bias and the layer has none, the call raises (returns none) instead of
silently skipping the bias. -/
theorem C8_init_from_deterministic_params {W B : Type}
    (s : FFGState W B) (p : ParamDict W B) :
    (p.bias = none →
      s.init_from_deterministic_params p = some { s with weight_mean := p.weight })
    ∧ (∀ b bm, p.bias = some b → s.bias_mean = some bm →
        s.init_from_deterministic_params p
          = some { s with weight_mean := p.weight, bias_mean := some b })
    ∧ (∀ b, p.bias = some b → s.bias_mean = none →
        s.init_from_deterministic_params p = none)
    ∧ (∀ t, s.init_from_deterministic_params p = some t →
        t._weight_sd = s._weight_sd ∧ t._bias_sd = s._bias_sd
          ∧ t.weight_mean = p.weight) := by
  have he := init_from_det_eq s p
  refine ⟨?_, ?_, ?_, ?_⟩
  · intro hb
    rw [he, hb]
  · intro b bm hb hbm
    rw [he, hb, hbm]
  · intro b hb hbm
    rw [he, hb, hbm]
  · intro t ht
    rw [he] at ht
    rcases hpb : p.bias with _ | b
    · rw [hpb] at ht
      have h2 : ({ s with weight_mean := p.weight } : FFGState W B) = t :=
        Option.some.inj ht
      subst h2
      exact ⟨rfl, rfl, rfl⟩
    · rw [hpb] at ht
      rcases hsm : s.bias_mean with _ | bm
      · rw [hsm] at ht
        exact Option.noConfusion ht
      · rw [hsm] at ht
        have h2 : ({ s with weight_mean := p.weight, bias_mean := some b } : FFGState W B)
            = t := Option.some.inj ht
        subst h2
        exact ⟨rfl, rfl, rfl⟩

/-- Claim C8 witness: on a concrete layer and a dictionary without bias, the call is a
silent no-op on the bias and overwrites exactly the weight mean. -/
theorem C8_witness :
    FFGState.init_from_deterministic_params s0 pN
      = some { s0 with weight_mean := pN.weight } :=
  (C8_init_from_deterministic_params s0 pN).1 rfl

end

end Bayesianize
